import Mathlib

/-!
Verification development for the Obj2Seq_paddle prompt-indicator stage
(`src/models/transformer/prompt_indicator.py`).

The embedding models:
* `RetentionPolicy` (lines 15-57): the per-image variable-length class
  selection.  Tensors of shape (B, C) are `List (List ℚ)` (B rows of C
  rationals); the float32 `F.sigmoid` primitive is an external numeric
  collaborator and is modelled as an arbitrary elementwise function
  `sigmoid : ℚ → ℚ` supplied to `forward` (every theorem quantifies over it,
  so the theorems hold in particular for the true sigmoid).  `paddle.argsort
  (descending=True)` is modelled as the deterministic descending sort whose
  ties are resolved by ascending original index, which is the ordering the
  repository and its specification rely on.
* `PromptIndicator.forward` (lines 115-187): the layer loop, the output
  dictionary, the retention call and the `assert targets is not None` check,
  with the decoder blocks, the per-layer classifier, the criterion and the
  gather step abstracted as abstract functions (they are external
  collaborators), keeping intact the data-flow that the claims are about:
  which element of the per-layer logits list goes where, and when an
  exception is raised.
* `PromptIndicator._init_class_prompts` (lines 85-106): the construction-time
  control flow (which configurations raise, and which exception).
-/

namespace Obj2Seq

/-- Configuration scalars of `MODEL.PROMPT_INDICATOR.RETENTION_POLICY`
(src lines 20-27). -/
structure RetentionPolicy where
  train_min_classes : ℕ
  train_max_classes : ℕ
  train_class_thr : ℚ
  eval_min_classes : ℕ
  eval_max_classes : ℕ
  eval_class_thr : ℚ

/-- Mode-dependent threshold: `class_thr = self.train_class_thr` /
`self.eval_class_thr` (src lines 39, 43). -/
def RetentionPolicy.classThr (p : RetentionPolicy) (training : Bool) : ℚ :=
  if training then p.train_class_thr else p.eval_class_thr

/-- Mode-dependent scalar minimum (`self.train_min_classes` /
`self.eval_min_classes`, src lines 37, 41). -/
def RetentionPolicy.minScalar (p : RetentionPolicy) (training : Bool) : ℕ :=
  if training then p.train_min_classes else p.eval_min_classes

/-- Mode-dependent scalar maximum (`self.train_max_classes` /
`self.eval_max_classes`, src lines 38, 42). -/
def RetentionPolicy.maxScalar (p : RetentionPolicy) (training : Bool) : ℕ :=
  if training then p.train_max_classes else p.eval_max_classes

/-- Per-image effective minimum: `num_classes.clip(max=min_scalar)` when
`num_classes` is supplied, the scalar otherwise (src lines 37, 41).
`ncb` is image `b`'s `num_classes` entry. -/
def RetentionPolicy.clippedMin (p : RetentionPolicy) (training : Bool)
    (ncb : Option ℕ) : ℕ :=
  match ncb with
  | some n => min n (p.minScalar training)
  | none => p.minScalar training

/-- Per-image effective maximum: `num_classes.clip(max=max_scalar)` when
`num_classes` is supplied, the scalar otherwise (src lines 38, 42). -/
def RetentionPolicy.clippedMax (p : RetentionPolicy) (training : Bool)
    (ncb : Option ℕ) : ℕ :=
  match ncb with
  | some n => min n (p.maxScalar training)
  | none => p.maxScalar training

/-- `(label_prob >= class_thr).sum(axis=1)` for one row (src line 44). -/
def numAboveThr (thr : ℚ) (row : List ℚ) : ℕ :=
  row.countP fun x => decide (thr ≤ x)

/-- The tensor-branch clamping of src lines 47-48:
`num_train = where(num_above_thr > min, num_above_thr, min)` followed by
`num_train = where(num_above_thr < max, num_train, max)`. -/
def tensorClamp (n mn mx : ℕ) : ℕ :=
  let t := if mn < n then n else mn
  if n < mx then t else mx

/-- Training-mode override of probabilities by `force_sample_probs`:
`paddle.where(force_sample_probs >= 0., force_sample_probs, label_prob)`
guarded by `if self.training` and `if force_sample_probs is not None`
(src lines 34-36).  Outside training, or when no forced probabilities are
given, the probabilities pass through unchanged. -/
def effectiveProbs (training : Bool) (force : Option (List (List ℚ)))
    (label_prob : List (List ℚ)) : List (List ℚ) :=
  if training then
    match force with
    | some f =>
        List.zipWith (List.zipWith fun fv pv => if 0 ≤ fv then fv else pv)
          f label_prob
    | none => label_prob
  else label_prob

/-- The per-image retain counts `num_train` (src lines 37-50): count the
probabilities at or above the mode threshold, then clamp.  When
`num_classes` is a tensor the clamp is the two `paddle.where` calls
(lines 47-48); when it is absent the clamp is
`num_above_thr.clip(min=min_classes, max=max_classes)` (line 50). -/
def RetentionPolicy.numTrain (p : RetentionPolicy) (training : Bool)
    (label_prob : List (List ℚ)) (num_classes : Option (List ℕ)) : List ℕ :=
  match num_classes with
  | some nc =>
      List.zipWith (fun row ncb =>
        tensorClamp (numAboveThr (p.classThr training) row)
          (min ncb (p.minScalar training)) (min ncb (p.maxScalar training)))
        label_prob nc
  | none =>
      label_prob.map fun row =>
        min (max (numAboveThr (p.classThr training) row) (p.minScalar training))
          (p.maxScalar training)

/-- `label_prob.argsort(axis=1, descending=True)` for one row (src line 51):
the class indices `0, ..., C-1` ordered by probability descending, ties by
ascending original class index (the stable descending order). -/
def argsortDescending (row : List ℚ) : List ℕ :=
  (List.range row.length).insertionSort fun i j =>
    row.getD j 0 < row.getD i 0 ∨ (row.getD i 0 = row.getD j 0 ∧ i ≤ j)

/-- One image's selected classes, `sorted_idx[:n_train].sort()` (src line 55):
the first `k` entries of the descending argsort, re-sorted ascending. -/
def selectRow (row : List ℚ) (k : ℕ) : List ℕ :=
  ((argsortDescending row).take k).insertionSort (· ≤ ·)

/-- The probability matrix the selection works on: `F.sigmoid(label_logits)`
(src line 33) followed by the training-mode `force_sample_probs` override
(src lines 34-36). -/
def probsOf (sigmoid : ℚ → ℚ) (training : Bool)
    (force : Option (List (List ℚ))) (label_logits : List (List ℚ)) :
    List (List ℚ) :=
  effectiveProbs training force (label_logits.map (List.map sigmoid))

/-- The per-image retain counts `k_b` that `RetentionPolicy.forward` computes
for a logit tensor: `num_train` of src line 47-50 evaluated on the effective
probabilities. -/
def RetentionPolicy.retainCounts (p : RetentionPolicy) (sigmoid : ℚ → ℚ)
    (training : Bool) (label_logits : List (List ℚ))
    (force : Option (List (List ℚ))) (num_classes : Option (List ℕ)) :
    List ℕ :=
  p.numTrain training (probsOf sigmoid training force label_logits) num_classes

/-- `RetentionPolicy.forward` (src lines 30-57).  `label_logits` is the
(B, C) logit tensor; `sigmoid` models the elementwise `F.sigmoid` (line 33);
the result is the pair `(concat bs_idx, concat cls_idx)` of line 57, where
image `b` contributes `num_train[b]` copies of `b` to `bs_idx` (line 56) and
its re-sorted top class indices to `cls_idx` (line 55). -/
def RetentionPolicy.forward (p : RetentionPolicy) (sigmoid : ℚ → ℚ)
    (training : Bool) (label_logits : List (List ℚ))
    (force_sample_probs : Option (List (List ℚ)))
    (num_classes : Option (List ℕ)) : List ℕ × List ℕ :=
  let label_prob := probsOf sigmoid training force_sample_probs label_logits
  let num_train := p.numTrain training label_prob num_classes
  let cls_rows := List.zipWith selectRow label_prob num_train
  let bs_rows := cls_rows.enum.map fun pr => List.replicate pr.2.length pr.1
  (bs_rows.flatten, cls_rows.flatten)

/-- Image `b`'s entry of the optional `num_classes` array. -/
def ncAt (num_classes : Option (List ℕ)) (b : ℕ) : Option ℕ :=
  num_classes.map fun l => l.getD b 0

/-- The classes the flat selection result assigns to image `b`: the second
components of the `(batch_index, class_index)` pairs whose batch index is
`b`. -/
def imageEntries (bs cls : List ℕ) (b : ℕ) : List ℕ :=
  ((bs.zip cls).filter fun q => q.1 == b).map fun q => q.2

/-! ### The prompt-indicator forward pass (src lines 115-187)

The decoder blocks (`self.prompt_blocks`), the per-layer classifier
(`self.classifier_label`, a list holding the same classifier instance once
per block), the loss criterion and the index-gather `tgt_class[bs, cls]` are
external collaborators: they are abstracted as function parameters over
abstract types `σ` (prompt states), `L` (per-layer logit tensors), `ι`
(selection results) and `τ` (target records).  What is kept concrete is the
data-flow the claims are about: the per-layer logits list, which of its
entries becomes the main output, which entries become auxiliary outputs,
which entry is handed to the retention policy, and which inputs raise. -/

/-- The layer loop of src lines 149-154: each block updates `tgt_class`, the
classifier is applied to the updated state, and the logits are appended to
`output_label_logits`.  Returns the final state and the per-layer logits
list. -/
def runBlocks {σ L : Type} (blocks : List (σ → σ)) (classify : σ → L)
    (tgt : σ) : σ × List L :=
  match blocks with
  | [] => (tgt, [])
  | blk :: rest =>
      let tgt1 := blk tgt
      let r := runBlocks rest classify tgt1
      (r.1, classify tgt1 :: r.2)

/-- Exceptions `PromptIndicator.forward` can raise on the paths the claims
are about: `indexError` is the `output_label_logits[-2]` lookup with fewer
than two layers (src line 160); `missingTargets` is either the iteration
over `targets=None` in the retention block (src lines 166-167, a
`TypeError`) or the `assert targets is not None` (src line 183). -/
inductive ForwardError
  | indexError
  | missingTargets
  deriving DecidableEq

/-- The outputs dictionary of `PromptIndicator.forward` (src lines 157-174),
restricted to the fields the claims mention.  `sel` is the retention
policy's flat selection result (`bs_idx`/`cls_idx`, src lines 168-174),
present only when retention is enabled. -/
structure PromptOutputs (σ L ι : Type) where
  tgt_class : σ
  cls_label_logits : L
  sel : Option ι
  aux_outputs : List L
  deriving DecidableEq

/-- `PromptIndicator.forward` (src lines 115-187).  `retention` is
`self.retention_policy` (None when `retain_categories` is off): it consumes
the logits tensor it is handed (src line 168 passes the loop variable
`label_logits`, i.e. the logits of the final block) together with the
targets (which supply `force_sample_probs` and `num_classes`, src lines
166-167); `gather` is the `tgt_class[bs_idxs, cls_idxs]` indexing of src
line 169.  Mirrored control flow: the outputs dictionary of line 157-162 is
built first (its `output_label_logits[-2]` raises `IndexError` when fewer
than two layers ran), then the retention block iterates over `targets`
(raising when `targets is None`), then the auxiliary outputs of lines
176-180 are collected, and finally the `assert targets is not None` of line
183 runs before the criterion is invoked. -/
def PromptIndicator.forward {σ L ι τ : Type}
    (blocks : List (σ → σ)) (classify : σ → L)
    (retention : Option (L → τ → ι)) (gather : σ → ι → σ)
    (tgt0 : σ) (targets : Option τ) :
    Except ForwardError (PromptOutputs σ L ι) :=
  let r := runBlocks blocks classify tgt0
  let tgt_class := r.1
  let ologits := r.2
  if h : 2 ≤ ologits.length then
    let main := ologits.get ⟨ologits.length - 2, by omega⟩
    let aux := if 1 < ologits.length then ologits.dropLast else []
    match retention with
    | some rp =>
        match targets with
        | none => Except.error ForwardError.missingTargets
        | some ts =>
            let sel := rp (ologits.get ⟨ologits.length - 1, by omega⟩) ts
            Except.ok ⟨gather tgt_class sel, main, some sel, aux⟩
    | none =>
        match targets with
        | none => Except.error ForwardError.missingTargets
        | some _ => Except.ok ⟨tgt_class, main, none, aux⟩
  else Except.error ForwardError.indexError

/-- Modelled from the spec: the auxiliary outputs as claim C5 describes
them — "the per-layer logits of every refinement layer excluding the one
used as the main output", the main output being the second-to-last layer's
logits.  (The code itself, src lines 176-178, instead excludes the last
layer: `output_label_logits[:-1]`.) -/
def auxOutputsSpec {L : Type} (ologits : List L) : List L :=
  ologits.eraseIdx (ologits.length - 2)

/-! ### Construction of the class-prompt store (src lines 85-106) -/

/-- Exceptions `PromptIndicator._init_class_prompts` can raise:
`nameErrorTorch` is the `torch.load` call of src line 89 — the module
imports paddle and numpy but never `torch`, so reaching that branch raises
`NameError`; `keyError` is the `raise KeyError` for an unrecognized
extension (src line 93); `assertFixedPrompts` is the
`assert args.fix_class_prompts == False` of src line 104;
`attributeErrorParameter` is the
`self.register_parameter("class_prompts", nn.Parameter(class_prompts))` of
src line 105 — `nn` here is `paddle.nn`, which has neither `Parameter` nor
a `register_parameter` method on `Layer`, so that line raises
`AttributeError` (the port replaces the very same torch idiom with
`paddle.create_parameter` + `set_value` at src lines 97-99, where line 99
keeps the torch original commented out, and `transformer.py` lines 25 and
34-36 likewise comment out `nn.Parameter` and import the repo's own
`normal_` in place of `nn.init.normal_`). -/
inductive InitPromptError
  | nameErrorTorch
  | keyError
  | assertFixedPrompts
  | attributeErrorParameter
  deriving DecidableEq

/-- Construction-time control flow of `PromptIndicator._init_class_prompts`
(src lines 85-106): which configurations raise, and which succeed.  The
actual file contents are external IO and are not modelled; only the
raise/no-raise outcome is.  Python truthiness of `args.init_vectors` is the
non-empty-string test, and the extension checks are
`args.init_vectors[-3:] == "pth"` / `== "npy"` (src lines 88, 90), modelled
with `String.takeRight 3`.  In the load branch with `.npy`, both the
fixed case (`register_buffer`, src line 95) and the trainable case
(`paddle.create_parameter` + `set_value`, src lines 97-98) are valid paddle
calls and construction proceeds (the dimension check of src lines 109-113
only selects whether a projection is built).  In the random-init branch the
`assert` of src line 104 fires first when prompts are fixed; otherwise
evaluation reaches `nn.Parameter` / `register_parameter` on src line 105,
unconverted torch API that raises `AttributeError` under paddle. -/
def initClassPromptsOutcome (init_vectors : String)
    (fix_class_prompts : Bool) : Except InitPromptError Unit :=
  if init_vectors ≠ "" then
    if init_vectors.takeRight 3 = "pth" then
      Except.error InitPromptError.nameErrorTorch
    else if init_vectors.takeRight 3 = "npy" then
      Except.ok ()
    else
      Except.error InitPromptError.keyError
  else
    if fix_class_prompts then Except.error InitPromptError.assertFixedPrompts
    else Except.error InitPromptError.attributeErrorParameter

/-! ### Supporting lemmas: the retain counts -/

theorem clippedMin_none (p : RetentionPolicy) (training : Bool) :
    p.clippedMin training none = p.minScalar training := rfl

theorem clippedMin_some (p : RetentionPolicy) (training : Bool) (n : ℕ) :
    p.clippedMin training (some n) = min n (p.minScalar training) := rfl

theorem clippedMax_none (p : RetentionPolicy) (training : Bool) :
    p.clippedMax training none = p.maxScalar training := rfl

theorem clippedMax_some (p : RetentionPolicy) (training : Bool) (n : ℕ) :
    p.clippedMax training (some n) = min n (p.maxScalar training) := rfl

theorem numTrain_length_none (p : RetentionPolicy) (training : Bool)
    (P : List (List ℚ)) :
    (p.numTrain training P none).length = P.length := by
  simp [RetentionPolicy.numTrain]

theorem numTrain_length_some (p : RetentionPolicy) (training : Bool)
    (P : List (List ℚ)) (l : List ℕ) :
    (p.numTrain training P (some l)).length = min P.length l.length := by
  simp [RetentionPolicy.numTrain]

theorem numTrain_bounds (p : RetentionPolicy) (training : Bool)
    (P : List (List ℚ)) (num_classes : Option (List ℕ)) (b : ℕ)
    (hmm : p.minScalar training ≤ p.maxScalar training)
    (hb : b < (p.numTrain training P num_classes).length) :
    p.clippedMin training (ncAt num_classes b) ≤
      (p.numTrain training P num_classes).getD b 0 ∧
    (p.numTrain training P num_classes).getD b 0 ≤
      p.clippedMax training (ncAt num_classes b) := by
  rw [List.getD_eq_getElem _ _ hb]
  match num_classes with
  | none =>
      simp only [RetentionPolicy.numTrain, List.getElem_map, ncAt,
        Option.map_none', clippedMin_none, clippedMax_none]
      omega
  | some l =>
      have hbl : b < l.length := by
        have := numTrain_length_some p training P l
        omega
      simp only [RetentionPolicy.numTrain, List.getElem_zipWith, ncAt,
        Option.map_some', clippedMin_some, clippedMax_some,
        List.getD_eq_getElem l 0 hbl, tensorClamp]
      split_ifs <;> omega

/-! ### Supporting lemmas: argsort and per-row selection -/

theorem argsortDescending_perm (row : List ℚ) :
    (argsortDescending row).Perm (List.range row.length) :=
  List.perm_insertionSort _ _

theorem argsortDescending_length (row : List ℚ) :
    (argsortDescending row).length = row.length := by
  simpa using (argsortDescending_perm row).length_eq

theorem argsortDescending_nodup (row : List ℚ) :
    (argsortDescending row).Nodup :=
  (argsortDescending_perm row).nodup_iff.mpr (List.nodup_range _)

/-- The descending argsort lists indices in strictly decreasing probability
order, with ties resolved by ascending original class index. -/
theorem argsortDescending_pairwise (row : List ℚ) :
    (argsortDescending row).Pairwise fun i j =>
      row.getD j 0 < row.getD i 0 ∨ (row.getD i 0 = row.getD j 0 ∧ i < j) := by
  haveI : IsTrans ℕ (fun i j =>
      row.getD j 0 < row.getD i 0 ∨ (row.getD i 0 = row.getD j 0 ∧ i ≤ j)) := by
    constructor
    intro a b c hab hbc
    rcases hab with h1 | h1 <;> rcases hbc with h2 | h2
    · exact Or.inl (h2.trans h1)
    · exact Or.inl (lt_of_le_of_lt h2.1.symm.le h1)
    · exact Or.inl (lt_of_lt_of_le h2 h1.1.ge)
    · exact Or.inr ⟨h1.1.trans h2.1, h1.2.trans h2.2⟩
  haveI : IsTotal ℕ (fun i j =>
      row.getD j 0 < row.getD i 0 ∨ (row.getD i 0 = row.getD j 0 ∧ i ≤ j)) := by
    constructor
    intro a b
    rcases lt_trichotomy (row.getD a 0) (row.getD b 0) with h | h | h
    · exact Or.inr (Or.inl h)
    · rcases Nat.le_total a b with hab | hab
      · exact Or.inl (Or.inr ⟨h, hab⟩)
      · exact Or.inr (Or.inr ⟨h.symm, hab⟩)
    · exact Or.inl (Or.inl h)
  have hle : (argsortDescending row).Pairwise fun i j =>
      row.getD j 0 < row.getD i 0 ∨ (row.getD i 0 = row.getD j 0 ∧ i ≤ j) :=
    List.sorted_insertionSort _ _
  exact (hle.and (argsortDescending_nodup row)).imp fun h => by
    rcases h with ⟨h1 | h1, hne⟩
    · exact Or.inl h1
    · exact Or.inr ⟨h1.1, Nat.lt_of_le_of_ne h1.2 hne⟩

theorem selectRow_perm (row : List ℚ) (k : ℕ) :
    (selectRow row k).Perm ((argsortDescending row).take k) :=
  List.perm_insertionSort _ _

theorem selectRow_nodup (row : List ℚ) (k : ℕ) : (selectRow row k).Nodup :=
  (selectRow_perm row k).nodup_iff.mpr
    (List.Nodup.sublist (List.take_sublist k _) (argsortDescending_nodup row))

theorem selectRow_length (row : List ℚ) (k : ℕ) (h : k ≤ row.length) :
    (selectRow row k).length = k := by
  have h1 := (selectRow_perm row k).length_eq
  rw [h1, List.length_take, argsortDescending_length]
  omega

/-- Each selected sub-array is strictly increasing. -/
theorem selectRow_sorted (row : List ℚ) (k : ℕ) :
    (selectRow row k).Sorted (· < ·) := by
  have hle : (selectRow row k).Pairwise (· ≤ ·) :=
    List.sorted_insertionSort _ _
  exact (hle.and (selectRow_nodup row k)).imp fun h =>
    Nat.lt_of_le_of_ne h.1 h.2

theorem selectRow_mem (row : List ℚ) (k x : ℕ) (hx : x ∈ selectRow row k) :
    x < row.length := by
  have h1 := (selectRow_perm row k).subset hx
  have h2 := List.take_subset k _ h1
  have h3 := (argsortDescending_perm row).subset h2
  simpa using h3

theorem selectRow_zero (row : List ℚ) : selectRow row 0 = [] := by
  simp [selectRow]

/-- Selecting at least `C` classes from a row of length `C` yields all the
class indices in ascending order. -/
theorem selectRow_all (row : List ℚ) (k : ℕ) (h : row.length ≤ k) :
    selectRow row k = List.range row.length := by
  have hperm : (selectRow row k).Perm (List.range row.length) := by
    have htake : (argsortDescending row).take k = argsortDescending row :=
      List.take_of_length_le (by rw [argsortDescending_length]; exact h)
    have h1 := selectRow_perm row k
    rw [htake] at h1
    exact h1.trans (argsortDescending_perm row)
  haveI : IsAntisymm ℕ (· ≤ ·) := ⟨fun _ _ => Nat.le_antisymm⟩
  refine List.eq_of_perm_of_sorted (r := (· ≤ ·)) hperm ?_ ?_
  · exact (selectRow_sorted row k).imp Nat.le_of_lt
  · exact (List.pairwise_lt_range _).imp Nat.le_of_lt

/-! ### Supporting lemmas: the flat ragged concatenation -/

theorem batch_flatten_length (rows : List (List ℕ)) (n : ℕ) :
    ((rows.enumFrom n).map fun pr => List.replicate pr.2.length pr.1).flatten.length
      = rows.flatten.length := by
  induction rows generalizing n with
  | nil => rfl
  | cons r rest ih =>
      simp only [List.enumFrom_cons, List.map_cons, List.flatten_cons,
        List.length_append, List.length_replicate, ih]

theorem mem_batch_flatten_ge (rows : List (List ℕ)) (n x : ℕ)
    (hx : x ∈ ((rows.enumFrom n).map
      fun pr => List.replicate pr.2.length pr.1).flatten) :
    n ≤ x := by
  induction rows generalizing n with
  | nil => simp at hx
  | cons r rest ih =>
      simp only [List.enumFrom_cons, List.map_cons, List.flatten_cons,
        List.mem_append] at hx
      rcases hx with h | h
      · exact (List.eq_of_mem_replicate h).ge
      · exact Nat.le_of_succ_le (ih (n + 1) h)

theorem pairwise_le_replicate (m a : ℕ) :
    (List.replicate m a).Pairwise (· ≤ ·) :=
  List.pairwise_replicate.mpr (Or.inr (Nat.le_refl a))

/-- The flat batch-index array is non-decreasing (so equal batch indices are
contiguous). -/
theorem sorted_batch_flatten (rows : List (List ℕ)) (n : ℕ) :
    (((rows.enumFrom n).map
      fun pr => List.replicate pr.2.length pr.1).flatten).Sorted (· ≤ ·) := by
  induction rows generalizing n with
  | nil => simp [List.Sorted]
  | cons r rest ih =>
      simp only [List.enumFrom_cons, List.map_cons, List.flatten_cons]
      rw [List.Sorted, List.pairwise_append]
      refine ⟨pairwise_le_replicate _ _, ih (n + 1), ?_⟩
      intro a ha b hb
      rw [List.eq_of_mem_replicate ha]
      exact Nat.le_of_succ_le (mem_batch_flatten_ge rest (n + 1) b hb)

theorem filter_zip_replicate (r : List ℕ) (a b : ℕ) :
    ((((List.replicate r.length a).zip r).filter fun q => q.1 == b).map
        fun q => q.2)
      = if a = b then r else [] := by
  induction r with
  | nil => simp
  | cons x xs ih =>
      by_cases hab : a = b
      · subst hab
        simpa [List.replicate_succ, List.filter_cons] using ih
      · simpa [List.replicate_succ, List.filter_cons, hab] using ih

/-- Extracting image `b`'s class indices from the flat pair of arrays gives
exactly row `b` of the per-image rows that were concatenated. -/
theorem imageEntries_batch (rows : List (List ℕ)) (n b : ℕ) :
    imageEntries
        ((rows.enumFrom n).map fun pr => List.replicate pr.2.length pr.1).flatten
        rows.flatten b
      = if n ≤ b then rows.getD (b - n) [] else [] := by
  induction rows generalizing n with
  | nil =>
      simp only [List.enumFrom_nil, List.map_nil, List.flatten_nil,
        imageEntries, List.zip_nil_left, List.filter_nil, List.map_nil,
        List.getD_nil, ite_self]
  | cons r rest ih =>
      have ih' := ih (n + 1)
      unfold imageEntries at ih' ⊢
      simp only [List.enumFrom_cons, List.map_cons, List.flatten_cons]
      rw [List.zip_append (by simp), List.filter_append, List.map_append,
        filter_zip_replicate, ih']
      rcases Nat.lt_trichotomy n b with h | h | h
      · have hnb : ¬ n = b := by omega
        have h1 : n + 1 ≤ b := by omega
        have h2 : n ≤ b := by omega
        have h3 : b - n = (b - (n + 1)) + 1 := by omega
        simp only [hnb, if_false, if_pos h1, if_pos h2, List.nil_append, h3,
          List.getD_cons_succ]
      · subst h
        have h1 : ¬ n + 1 ≤ n := by omega
        simp [h1]
      · have hnb : ¬ n = b := by omega
        have h1 : ¬ n + 1 ≤ b := by omega
        have h2 : ¬ n ≤ b := by omega
        simp [hnb, h1, h2]

theorem batch_flatten_length_enum (rows : List (List ℕ)) :
    ((rows.enum.map fun pr => List.replicate pr.2.length pr.1).flatten.length)
      = rows.flatten.length :=
  batch_flatten_length rows 0

theorem sorted_batch_flatten_enum (rows : List (List ℕ)) :
    (((rows.enum.map
      fun pr => List.replicate pr.2.length pr.1).flatten)).Sorted (· ≤ ·) :=
  sorted_batch_flatten rows 0

theorem imageEntries_batch_enum (rows : List (List ℕ)) (b : ℕ) :
    imageEntries
        ((rows.enum.map fun pr => List.replicate pr.2.length pr.1).flatten)
        rows.flatten b
      = rows.getD b [] := by
  have h := imageEntries_batch rows 0 b
  simpa using h

/-! ### Further supporting lemmas -/

theorem effectiveProbs_none (training : Bool) (P : List (List ℚ)) :
    effectiveProbs training none P = P := by
  cases training <;> rfl

theorem clippedMax_le (p : RetentionPolicy) (training : Bool) (o : Option ℕ) :
    p.clippedMax training o ≤ p.maxScalar training := by
  cases o
  · exact le_of_eq (clippedMax_none p training)
  · rw [clippedMax_some]; exact Nat.min_le_right _ _

theorem runBlocks_length {σ L : Type} (blocks : List (σ → σ))
    (classify : σ → L) (tgt : σ) :
    (runBlocks blocks classify tgt).2.length = blocks.length := by
  induction blocks generalizing tgt with
  | nil => rfl
  | cons blk rest ih => simp [runBlocks, ih]

/-! ### Claim theorems -/

/-- C1: for every (B, C) logit tensor, in both training and evaluation mode,
and with or without a per-image `num_classes` array, every per-image retain
count `k_b` computed by `RetentionPolicy.forward` satisfies
`min_b ≤ k_b ≤ max_b`, where `min_b`/`max_b` are the mode-dependent
configured scalar bounds, each clipped downward so it does not exceed that
image's `num_classes` entry when `num_classes` is supplied.  The
configuration is assumed coherent (mode minimum ≤ mode maximum), as the
bounds would otherwise be contradictory. -/
theorem retain_count_within_bounds (p : RetentionPolicy) (sigmoid : ℚ → ℚ)
    (training : Bool) (label_logits : List (List ℚ))
    (force : Option (List (List ℚ))) (num_classes : Option (List ℕ)) (b : ℕ)
    (hmm : p.minScalar training ≤ p.maxScalar training)
    (hb : b < (p.retainCounts sigmoid training label_logits force
      num_classes).length) :
    p.clippedMin training (ncAt num_classes b) ≤
      (p.retainCounts sigmoid training label_logits force num_classes).getD b 0 ∧
    (p.retainCounts sigmoid training label_logits force num_classes).getD b 0 ≤
      p.clippedMax training (ncAt num_classes b) :=
  numTrain_bounds p training _ num_classes b hmm hb

theorem retain_count_within_bounds_witness :
    ((⟨1, 3, mkRat 1 2, 1, 3, mkRat 1 2⟩ : RetentionPolicy).minScalar false ≤
      (⟨1, 3, mkRat 1 2, 1, 3, mkRat 1 2⟩ : RetentionPolicy).maxScalar false) ∧
    (0 < ((⟨1, 3, mkRat 1 2, 1, 3, mkRat 1 2⟩ : RetentionPolicy).retainCounts id false
      [[1, 0]] none (some [5])).length) ∧
    ((⟨1, 3, mkRat 1 2, 1, 3, mkRat 1 2⟩ : RetentionPolicy).clippedMin false
        (ncAt (some [5]) 0) ≤
      ((⟨1, 3, mkRat 1 2, 1, 3, mkRat 1 2⟩ : RetentionPolicy).retainCounts id false
        [[1, 0]] none (some [5])).getD 0 0 ∧
      ((⟨1, 3, mkRat 1 2, 1, 3, mkRat 1 2⟩ : RetentionPolicy).retainCounts id false
        [[1, 0]] none (some [5])).getD 0 0 ≤
      (⟨1, 3, mkRat 1 2, 1, 3, mkRat 1 2⟩ : RetentionPolicy).clippedMax false
        (ncAt (some [5]) 0)) :=
  ⟨by decide, by decide,
    retain_count_within_bounds _ id false [[1, 0]] none (some [5]) 0
      (by decide) (by decide)⟩

/-- C9: in evaluation mode the output of `RetentionPolicy.forward` does not
depend on `force_sample_probs` at all: any two values of that argument
(including `none`) give identical batch-index and class-index arrays.  The
forced probabilities are only read inside the `if self.training` branch
(src lines 34-36). -/
theorem eval_mode_ignores_forced_probs (p : RetentionPolicy)
    (sigmoid : ℚ → ℚ) (label_logits : List (List ℚ))
    (f1 f2 : Option (List (List ℚ))) (num_classes : Option (List ℕ)) :
    p.forward sigmoid false label_logits f1 num_classes =
      p.forward sigmoid false label_logits f2 num_classes := rfl

/-- C4: in training mode, wherever the supplied `force_sample_probs` entry
is ≥ 0 the effective probability used for image `b`, class `c` is exactly
that forced entry, overriding the sigmoid of the logit; wherever the forced
entry is < 0, the sigmoid-derived probability is used unchanged.  `S` is
the sigmoid-derived probability matrix. -/
theorem force_overrides_probability (sigmoid : ℚ → ℚ)
    (label_logits f S : List (List ℚ))
    (hS : S = label_logits.map (List.map sigmoid)) (b c : ℕ)
    (hb : b < S.length) (hf : f.length = S.length)
    (hc : c < (S.getD b []).length)
    (hrow : (f.getD b []).length = (S.getD b []).length) :
    ((probsOf sigmoid true (some f) label_logits).getD b []).getD c 0 =
      if 0 ≤ (f.getD b []).getD c 0 then (f.getD b []).getD c 0
      else (S.getD b []).getD c 0 := by
  subst hS
  set S := label_logits.map (List.map sigmoid) with hS
  have hzl : (List.zipWith (List.zipWith fun fv pv =>
      if 0 ≤ fv then fv else pv) f S).length = S.length := by
    rw [List.length_zipWith, hf, Nat.min_self]
  have hb1 : b < (List.zipWith (List.zipWith fun fv pv =>
      if 0 ≤ fv then fv else pv) f S).length := by omega
  have hbf : b < f.length := by omega
  have hout : ((probsOf sigmoid true (some f) label_logits).getD b []) =
      List.zipWith (fun fv pv => if 0 ≤ fv then fv else pv) f[b] S[b] := by
    show ((List.zipWith (List.zipWith fun fv pv =>
      if 0 ≤ fv then fv else pv) f S).getD b []) = _
    rw [List.getD_eq_getElem _ _ hb1, List.getElem_zipWith]
  rw [hout]
  rw [List.getD_eq_getElem S [] hb] at hc hrow
  rw [List.getD_eq_getElem f [] hbf] at hrow
  have hc1 : c < (List.zipWith (fun fv pv =>
      if 0 ≤ fv then fv else pv) f[b] S[b]).length := by
    rw [List.length_zipWith, hrow, Nat.min_self]; exact hc
  rw [List.getD_eq_getElem _ _ hc1, List.getElem_zipWith,
    List.getD_eq_getElem S [] hb, List.getD_eq_getElem f [] hbf,
    List.getD_eq_getElem _ _ hc, List.getD_eq_getElem _ _ (by omega : c < f[b].length)]

theorem force_overrides_probability_witness :
    ([[2, -1]] : List (List ℚ)) = [[2, -1]].map (List.map id) ∧
    (0 < ([[2, -1]] : List (List ℚ)).length) ∧
    (([[mkRat 1 4, -1]] : List (List ℚ)).length = ([[2, -1]] : List (List ℚ)).length) ∧
    (1 < (([[2, -1]] : List (List ℚ)).getD 0 []).length) ∧
    ((([[mkRat 1 4, -1]] : List (List ℚ)).getD 0 []).length =
      (([[2, -1]] : List (List ℚ)).getD 0 []).length) ∧
    ((probsOf id true (some [[mkRat 1 4, -1]]) [[2, -1]]).getD 0 []).getD 1 0 =
      if 0 ≤ (([[mkRat 1 4, -1]] : List (List ℚ)).getD 0 []).getD 1 0 then
        (([[mkRat 1 4, -1]] : List (List ℚ)).getD 0 []).getD 1 0
      else (([[2, -1]] : List (List ℚ)).getD 0 []).getD 1 0 :=
  ⟨by decide, by decide, by decide, by decide, by decide,
    force_overrides_probability id [[2, -1]] [[mkRat 1 4, -1]] [[2, -1]]
      (by decide) 0 1 (by decide) (by decide) (by decide) (by decide)⟩

theorem zipWith_selectRow_getD (P : List (List ℚ)) (k : List ℕ) (b : ℕ)
    (hb : b < P.length) (hbk : b < k.length) :
    (List.zipWith selectRow P k).getD b [] =
      selectRow (P.getD b []) (k.getD b 0) := by
  have hb2 : b < (List.zipWith selectRow P k).length := by
    rw [List.length_zipWith]; omega
  rw [List.getD_eq_getElem _ _ hb2, List.getElem_zipWith,
    List.getD_eq_getElem _ _ hb, List.getD_eq_getElem _ _ hbk]

/-- C2: the flat index arrays returned by `RetentionPolicy.forward` satisfy:
both have total length `S = Σ_b k_b`; `batch_index` is non-decreasing (so
all indices of one image are contiguous); and within each image `b` the
`class_index` entries are strictly increasing, lie in `{0, ..., C-1}`, and
number exactly `k_b`.  `P` abbreviates the effective probability matrix and
`k` the retain-count vector; the shape hypotheses say the logit tensor is a
well-formed (B, C) batch with a long-enough `num_classes` array, and the
configuration is coherent (`min ≤ max ≤ C`). -/
theorem selection_result_invariants (p : RetentionPolicy) (sigmoid : ℚ → ℚ)
    (training : Bool) (label_logits : List (List ℚ))
    (force : Option (List (List ℚ))) (num_classes : Option (List ℕ)) (C : ℕ)
    (P : List (List ℚ)) (k : List ℕ) (bsi clsi : List ℕ)
    (hP : P = probsOf sigmoid training force label_logits)
    (hk : k = p.numTrain training P num_classes)
    (hres : p.forward sigmoid training label_logits force num_classes =
      (bsi, clsi))
    (hmm : p.minScalar training ≤ p.maxScalar training)
    (hmx : p.maxScalar training ≤ C)
    (hC : ∀ row ∈ P, row.length = C)
    (hnc : ∀ l, num_classes = some l → P.length ≤ l.length) :
    bsi.length = k.sum ∧ clsi.length = k.sum ∧ bsi.Sorted (· ≤ ·) ∧
    ∀ b, b < P.length →
      (imageEntries bsi clsi b).Sorted (· < ·) ∧
      (∀ c ∈ imageEntries bsi clsi b, c < C) ∧
      (imageEntries bsi clsi b).length = k.getD b 0 := by
  have hfwd : p.forward sigmoid training label_logits force num_classes =
      (((List.zipWith selectRow P k).enum.map fun pr =>
          List.replicate pr.2.length pr.1).flatten,
        (List.zipWith selectRow P k).flatten) := by
    subst hP; subst hk; rfl
  rw [hfwd] at hres
  obtain ⟨hbs, hcls⟩ := Prod.ext_iff.mp hres
  subst hbs; subst hcls
  set R := List.zipWith selectRow P k with hR
  have hkl : k.length = P.length := by
    cases num_classes with
    | none => rw [hk]; exact numTrain_length_none p training P
    | some l =>
        rw [hk, numTrain_length_some]
        have := hnc l rfl
        omega
  have hkC : ∀ b, b < P.length → k.getD b 0 ≤ C := by
    intro b hb
    have hbk : b < (p.numTrain training P num_classes).length := by
      rw [← hk]; omega
    have h2 := (numTrain_bounds p training P num_classes b hmm hbk).2
    rw [← hk] at h2
    exact h2.trans ((clippedMax_le p training _).trans hmx)
  have hR_len : R.length = P.length := by
    rw [hR, List.length_zipWith]; omega
  have hR_getD : ∀ b, b < P.length →
      R.getD b [] = selectRow (P.getD b []) (k.getD b 0) := by
    intro b hb
    rw [hR]
    exact zipWith_selectRow_getD P k b hb (by omega)
  have hPb_len : ∀ b, b < P.length → (P.getD b []).length = C := by
    intro b hb
    rw [List.getD_eq_getElem _ _ hb]
    exact hC _ (List.getElem_mem hb)
  have hselect_len : ∀ b, b < P.length →
      (selectRow (P.getD b []) (k.getD b 0)).length = k.getD b 0 := by
    intro b hb
    refine selectRow_length _ _ ?_
    rw [hPb_len b hb]
    exact hkC b hb
  have hmap : R.map List.length = k := by
    apply List.ext_getElem
    · rw [List.length_map, hR_len, hkl]
    · intro n h1 h2
      rw [List.length_map, hR_len] at h1
      rw [List.getElem_map]
      have e1 : R[n] = R.getD n [] :=
        (List.getD_eq_getElem R [] (by omega)).symm
      rw [e1, hR_getD n h1, hselect_len n h1, List.getD_eq_getElem k 0 h2]
  refine ⟨?_, ?_, ?_, ?_⟩
  · rw [batch_flatten_length_enum, List.length_flatten, hmap]
  · rw [List.length_flatten, hmap]
  · exact sorted_batch_flatten_enum R
  · intro b hb
    have hIE : imageEntries
        ((R.enum.map fun pr => List.replicate pr.2.length pr.1).flatten)
        R.flatten b = R.getD b [] := imageEntries_batch_enum R b
    rw [hIE, hR_getD b hb]
    refine ⟨selectRow_sorted _ _, ?_, hselect_len b hb⟩
    intro c hc
    have := selectRow_mem _ _ c hc
    rwa [hPb_len b hb] at this

theorem selection_result_invariants_witness :
    (([[(1 : ℚ), 0]] : List (List ℚ)) = probsOf id false none [[1, 0]]) ∧
    (([1] : List ℕ) =
      (⟨1, 2, mkRat 1 2, 1, 2, mkRat 1 2⟩ : RetentionPolicy).numTrain false
        [[1, 0]] none) ∧
    ((⟨1, 2, mkRat 1 2, 1, 2, mkRat 1 2⟩ : RetentionPolicy).forward id false
      [[1, 0]] none none = ([0], [0])) ∧
    ((⟨1, 2, mkRat 1 2, 1, 2, mkRat 1 2⟩ : RetentionPolicy).minScalar false ≤
      (⟨1, 2, mkRat 1 2, 1, 2, mkRat 1 2⟩ : RetentionPolicy).maxScalar false) ∧
    ((⟨1, 2, mkRat 1 2, 1, 2, mkRat 1 2⟩ : RetentionPolicy).maxScalar false ≤ 2) ∧
    (∀ row ∈ ([[(1 : ℚ), 0]] : List (List ℚ)), row.length = 2) ∧
    (∀ l, (none : Option (List ℕ)) = some l →
      ([[(1 : ℚ), 0]] : List (List ℚ)).length ≤ l.length) ∧
    (([0] : List ℕ).length = ([1] : List ℕ).sum ∧
      ([0] : List ℕ).length = ([1] : List ℕ).sum ∧
      ([0] : List ℕ).Sorted (· ≤ ·) ∧
      ∀ b, b < ([[(1 : ℚ), 0]] : List (List ℚ)).length →
        (imageEntries [0] [0] b).Sorted (· < ·) ∧
        (∀ c ∈ imageEntries [0] [0] b, c < 2) ∧
        (imageEntries [0] [0] b).length = ([1] : List ℕ).getD b 0) := by
  refine ⟨by decide, by decide, by decide, by decide, by decide, by decide,
    ?_, ?_⟩
  · intro l h
    simp at h
  · exact selection_result_invariants ⟨1, 2, mkRat 1 2, 1, 2, mkRat 1 2⟩
      id false [[1, 0]] none none 2 [[1, 0]] [1] [0] [0]
      (by decide) (by decide) (by decide) (by decide) (by decide) (by decide)
      (fun l h => by simp at h)

/-- C3: `RetentionPolicy.forward` ranks the classes of each image by
probability descending with ties broken by ascending class index (the
stable descending sort), takes the top `k_b`, and re-sorts them ascending;
on the spec's end-to-end scenario (B=2, C=5, threshold 1/2, min 1, max 3,
probabilities [0.9, 0.1, 0.6, 0.4, 0.2] and [0.05, ..., 0.05], fed through
the identity in place of the sigmoid) the flat result is
`batch_index = [0, 0, 1]`, `class_index = [0, 2, 0]`. -/
theorem stable_ranking_and_scenario :
    (∀ row : List ℚ, (argsortDescending row).Pairwise fun i j =>
        row.getD j 0 < row.getD i 0 ∨ (row.getD i 0 = row.getD j 0 ∧ i < j)) ∧
    RetentionPolicy.forward ⟨1, 3, mkRat 1 2, 1, 3, mkRat 1 2⟩ id false
        [[mkRat 9 10, mkRat 1 10, mkRat 6 10, mkRat 4 10, mkRat 2 10],
         [mkRat 1 20, mkRat 1 20, mkRat 1 20, mkRat 1 20, mkRat 1 20]]
        none none
      = ([0, 0, 1], [0, 2, 0]) :=
  ⟨argsortDescending_pairwise, by decide⟩

theorem mem_zipWith_imp {α β γ : Type} {f : α → β → γ} {l₁ : List α}
    {l₂ : List β} {x : γ} (hx : x ∈ List.zipWith f l₁ l₂) :
    ∃ a b, a ∈ l₁ ∧ b ∈ l₂ ∧ x = f a b := by
  induction l₁ generalizing l₂ with
  | nil => simp at hx
  | cons a as ih =>
      cases l₂ with
      | nil => simp at hx
      | cons b bs =>
          rw [List.zipWith_cons_cons, List.mem_cons] at hx
          rcases hx with h | h
          · exact ⟨a, b, by simp, by simp, h⟩
          · obtain ⟨a1, b1, ha, hb, hx⟩ := ih h
            exact ⟨a1, b1, by simp [ha], by simp [hb], hx⟩

theorem zipWith_selectRow_zero (P : List (List ℚ)) (K : List ℕ)
    (hK : ∀ x ∈ K, x = 0) : (List.zipWith selectRow P K).flatten = [] := by
  induction P generalizing K with
  | nil => simp
  | cons r rs ih =>
      cases K with
      | nil => simp
      | cons k ks =>
          rw [List.zipWith_cons_cons, List.flatten_cons]
          have hk0 : k = 0 := hK k (by simp)
          rw [hk0, selectRow_zero, List.nil_append]
          exact ih ks (fun x hx => hK x (by simp [hx]))

theorem enumFrom_replicate_batch (m n : ℕ) (r : List ℕ) :
    ((List.replicate m r).enumFrom n).map
        (fun pr => List.replicate pr.2.length pr.1)
      = (List.range' n m).map fun b => List.replicate r.length b := by
  induction m generalizing n with
  | zero => rfl
  | succ m ih =>
      rw [List.replicate_succ, List.enumFrom_cons, List.range'_succ,
        List.map_cons, List.map_cons, ih]

/-- C6: `RetentionPolicy.forward` supports both retention extremes.  With
configured minimum = maximum = 0 every image contributes nothing and the
flat arrays are globally empty (this holds with or without a `num_classes`
array, which can only clip the bounds further down); with configured
minimum = maximum = C on a (B, C) batch every image contributes all C class
indices in ascending order. -/
theorem retention_extremes :
    (∀ (p : RetentionPolicy) (sigmoid : ℚ → ℚ) (training : Bool)
        (label_logits : List (List ℚ)) (num_classes : Option (List ℕ)),
      p.minScalar training = 0 → p.maxScalar training = 0 →
      p.forward sigmoid training label_logits none num_classes = ([], [])) ∧
    (∀ (p : RetentionPolicy) (sigmoid : ℚ → ℚ) (training : Bool)
        (label_logits : List (List ℚ)) (C : ℕ),
      p.minScalar training = C → p.maxScalar training = C →
      (∀ row ∈ label_logits, row.length = C) →
      p.forward sigmoid training label_logits none none =
        (((List.range label_logits.length).map fun b =>
            List.replicate C b).flatten,
          (List.replicate label_logits.length (List.range C)).flatten)) := by
  constructor
  · intro p sigmoid training L nc h0 h1
    have hfwd : p.forward sigmoid training L none nc =
        (((List.zipWith selectRow (probsOf sigmoid training none L)
              (p.numTrain training (probsOf sigmoid training none L)
                nc)).enum.map fun pr =>
            List.replicate pr.2.length pr.1).flatten,
          (List.zipWith selectRow (probsOf sigmoid training none L)
            (p.numTrain training (probsOf sigmoid training none L)
              nc)).flatten) := rfl
    have hK0 : ∀ x ∈ p.numTrain training
        (probsOf sigmoid training none L) nc, x = 0 := by
      intro x hx
      cases nc with
      | none =>
          simp only [RetentionPolicy.numTrain] at hx
          obtain ⟨row, _, rfl⟩ := List.mem_map.mp hx
          simp only [h0, h1]
          omega
      | some ll =>
          simp only [RetentionPolicy.numTrain] at hx
          obtain ⟨a, b, _, _, rfl⟩ := mem_zipWith_imp hx
          simp only [h0, h1, Nat.min_zero]
          simp [tensorClamp]
    have hcls := zipWith_selectRow_zero (probsOf sigmoid training none L)
      (p.numTrain training (probsOf sigmoid training none L) nc) hK0
    have hbs : ((List.zipWith selectRow (probsOf sigmoid training none L)
        (p.numTrain training (probsOf sigmoid training none L)
          nc)).enum.map fun pr =>
        List.replicate pr.2.length pr.1).flatten = [] := by
      apply List.eq_nil_of_length_eq_zero
      rw [batch_flatten_length_enum, hcls]
      rfl
    rw [hfwd, hcls, hbs]
  · intro p sigmoid training L C h0 h1 hC
    have hP : probsOf sigmoid training none L = L.map (List.map sigmoid) := by
      rw [probsOf, effectiveProbs_none]
    set P := L.map (List.map sigmoid) with hPdef
    have hPC : ∀ row ∈ P, row.length = C := by
      intro row hrow
      obtain ⟨r0, hr0, rfl⟩ := List.mem_map.mp hrow
      rw [List.length_map]
      exact hC r0 hr0
    have hK : p.numTrain training P none = List.replicate P.length C := by
      rw [RetentionPolicy.numTrain]
      have hcongr : ∀ row ∈ P,
          min (max (numAboveThr (p.classThr training) row)
            (p.minScalar training)) (p.maxScalar training) = C := by
        intro row _
        rw [h0, h1]
        omega
      rw [List.map_congr_left hcongr, List.map_const']
    have hRows : List.zipWith selectRow P (List.replicate P.length C) =
        List.replicate P.length (List.range C) := by
      apply List.ext_getElem
      · simp [List.length_zipWith]
      · intro n h1' h2'
        rw [List.getElem_zipWith, List.getElem_replicate,
          List.getElem_replicate]
        have hn : n < P.length := by
          rw [List.length_zipWith] at h1'
          omega
        have hl : P[n].length = C := hPC _ (List.getElem_mem hn)
        exact (selectRow_all _ _ (by rw [hl])).trans (by rw [hl])
    have hbsRows : (List.replicate P.length (List.range C)).enum.map
          (fun pr => List.replicate pr.2.length pr.1)
        = (List.range P.length).map fun b => List.replicate C b := by
      have h := enumFrom_replicate_batch P.length 0 (List.range C)
      rw [List.length_range] at h
      rw [← List.range_eq_range'] at h
      exact h
    have hfwd : p.forward sigmoid training L none none =
        (((List.zipWith selectRow (probsOf sigmoid training none L)
              (p.numTrain training (probsOf sigmoid training none L)
                none)).enum.map fun pr =>
            List.replicate pr.2.length pr.1).flatten,
          (List.zipWith selectRow (probsOf sigmoid training none L)
            (p.numTrain training (probsOf sigmoid training none L)
              none)).flatten) := rfl
    rw [hfwd, hP, hK, hRows, hbsRows, hPdef, List.length_map]

theorem retention_extremes_witness :
    ((⟨0, 0, mkRat 1 2, 0, 0, mkRat 1 2⟩ : RetentionPolicy).minScalar false
        = 0) ∧
    ((⟨0, 0, mkRat 1 2, 0, 0, mkRat 1 2⟩ : RetentionPolicy).maxScalar false
        = 0) ∧
    ((⟨0, 0, mkRat 1 2, 0, 0, mkRat 1 2⟩ : RetentionPolicy).forward id false
      [[(1 : ℚ), 0]] none none = ([], [])) ∧
    ((⟨2, 2, mkRat 1 2, 2, 2, mkRat 1 2⟩ : RetentionPolicy).minScalar false
        = 2) ∧
    ((⟨2, 2, mkRat 1 2, 2, 2, mkRat 1 2⟩ : RetentionPolicy).maxScalar false
        = 2) ∧
    (∀ row ∈ ([[(1 : ℚ), 0]] : List (List ℚ)), row.length = 2) ∧
    ((⟨2, 2, mkRat 1 2, 2, 2, mkRat 1 2⟩ : RetentionPolicy).forward id false
      [[(1 : ℚ), 0]] none none =
        (((List.range ([[(1 : ℚ), 0]] : List (List ℚ)).length).map fun b =>
            List.replicate 2 b).flatten,
          (List.replicate ([[(1 : ℚ), 0]] : List (List ℚ)).length
            (List.range 2)).flatten)) := by
  refine ⟨by decide, by decide, ?_, by decide, by decide, by decide, ?_⟩
  · exact retention_extremes.1 ⟨0, 0, mkRat 1 2, 0, 0, mkRat 1 2⟩ id false
      [[(1 : ℚ), 0]] none (by decide) (by decide)
  · exact retention_extremes.2 ⟨2, 2, mkRat 1 2, 2, 2, mkRat 1 2⟩ id false
      [[(1 : ℚ), 0]] 2 (by decide) (by decide) (by decide)

/-- C5 (counterexample): the claim that the auxiliary outputs are "the
per-layer logits of every refinement layer excluding the one used as the
main output" is false on the code.  With two refinement layers producing
per-layer logits `[1, 2]`, the main output is the second-to-last entry `1`,
yet the code's auxiliary outputs are `[1]` — they contain the main entry
and exclude the last entry `2`, while the claim demands `[2]`. -/
theorem aux_excludes_main_counterexample :
    (PromptIndicator.forward [Nat.succ, Nat.succ] (fun s : ℕ => s)
        (none : Option (ℕ → Unit → ℕ)) (fun s _ => s) 0 (some ())).map
      (fun o => o.aux_outputs) = Except.ok [1] ∧
    (runBlocks [Nat.succ, Nat.succ] (fun s : ℕ => s) 0).2 = [1, 2] ∧
    auxOutputsSpec ((runBlocks [Nat.succ, Nat.succ] (fun s : ℕ => s) 0).2)
      = [2] ∧
    ([1] : List ℕ) ≠ [2] :=
  ⟨rfl, rfl, rfl, by decide⟩

/-- C5 (amended): on every successful forward pass the main presence-logits
output `cls_label_logits` is the second-to-last refinement layer's logits,
and the auxiliary outputs are the per-layer logits of every refinement
layer except the LAST one (`output_label_logits[:-1]`, src lines 176-178)
— so the layer excluded from the auxiliary list is the final layer, not
the layer used as the main output, which itself reappears among the
auxiliary outputs. -/
theorem main_and_aux_outputs {σ L ι τ : Type}
    (blocks : List (σ → σ)) (classify : σ → L)
    (retention : Option (L → τ → ι)) (gather : σ → ι → σ) (tgt0 : σ)
    (ts : τ) (o : PromptOutputs σ L ι)
    (hok : PromptIndicator.forward blocks classify retention gather tgt0
      (some ts) = Except.ok o) :
    (runBlocks blocks classify tgt0).2[
        (runBlocks blocks classify tgt0).2.length - 2]?
      = some o.cls_label_logits ∧
    o.aux_outputs = (runBlocks blocks classify tgt0).2.dropLast := by
  simp only [PromptIndicator.forward] at hok
  by_cases h : 2 ≤ (runBlocks blocks classify tgt0).2.length
  · rw [dif_pos h] at hok
    cases retention with
    | none =>
        injection hok with h2
        subst h2
        refine ⟨List.getElem?_eq_getElem (by omega), ?_⟩
        show (if 1 < (runBlocks blocks classify tgt0).2.length then
          (runBlocks blocks classify tgt0).2.dropLast else []) = _
        rw [if_pos (by omega)]
    | some rp =>
        injection hok with h2
        subst h2
        refine ⟨List.getElem?_eq_getElem (by omega), ?_⟩
        show (if 1 < (runBlocks blocks classify tgt0).2.length then
          (runBlocks blocks classify tgt0).2.dropLast else []) = _
        rw [if_pos (by omega)]
  · rw [dif_neg h] at hok
    exact absurd hok (by simp)

theorem main_and_aux_outputs_witness :
    (runBlocks [Nat.succ, Nat.succ] (fun s : ℕ => s) 0).2[
        (runBlocks [Nat.succ, Nat.succ] (fun s : ℕ => s) 0).2.length - 2]?
      = some (1 : ℕ) ∧
    ([1] : List ℕ) =
      (runBlocks [Nat.succ, Nat.succ] (fun s : ℕ => s) 0).2.dropLast :=
  main_and_aux_outputs [Nat.succ, Nat.succ] (fun s => s)
    (none : Option (ℕ → Unit → ℕ)) (fun s _ => s) 0 ()
    ⟨2, 1, none, [1]⟩ rfl

/-- C10: when retention is enabled, the logits handed to the retention
policy are those of the final refinement layer (the loop variable
`label_logits` at src line 168), while the main `cls_label_logits` output is
the second-to-last layer's logits — two different entries of the per-layer
logits list whenever at least two layers run, and a concrete two-layer run
where the two tensors differ (retention sees `2`, the main output is `1`)
shows the selection and the main output can be driven by different logit
tensors on the same forward call. -/
theorem retention_input_is_last_layer :
    (∀ (σ L ι τ : Type) (blocks : List (σ → σ)) (classify : σ → L)
        (rp : L → τ → ι) (gather : σ → ι → σ) (tgt0 : σ) (ts : τ)
        (o : PromptOutputs σ L ι) (lst : L),
      PromptIndicator.forward blocks classify (some rp) gather tgt0 (some ts)
          = Except.ok o →
      (runBlocks blocks classify tgt0).2[
          (runBlocks blocks classify tgt0).2.length - 1]? = some lst →
      o.sel = some (rp lst ts) ∧
      (runBlocks blocks classify tgt0).2[
          (runBlocks blocks classify tgt0).2.length - 2]?
        = some o.cls_label_logits) ∧
    ((PromptIndicator.forward [Nat.succ, Nat.succ] (fun s : ℕ => s)
        (some fun l (_ : Unit) => l) (fun s _ => s) 0 (some ())).map
      (fun o => (o.sel, o.cls_label_logits)) = Except.ok (some 2, 1) ∧
      (2 : ℕ) ≠ 1) := by
  constructor
  · intro σ L ι τ blocks classify rp gather tgt0 ts o lst hok hlst
    simp only [PromptIndicator.forward] at hok
    by_cases h : 2 ≤ (runBlocks blocks classify tgt0).2.length
    · rw [dif_pos h] at hok
      injection hok with h2
      subst h2
      rw [List.getElem?_eq_getElem (by omega : (runBlocks blocks classify
        tgt0).2.length - 1 < (runBlocks blocks classify tgt0).2.length)]
        at hlst
      injection hlst with h3
      refine ⟨?_, List.getElem?_eq_getElem (by omega)⟩
      show some (rp ((runBlocks blocks classify tgt0).2.get
        ⟨(runBlocks blocks classify tgt0).2.length - 1, by omega⟩) ts) = _
      rw [← h3]
      rfl
    · rw [dif_neg h] at hok
      exact absurd hok (by simp)
  · exact ⟨rfl, by decide⟩

theorem retention_input_is_last_layer_witness :
    (some (2 : ℕ) = some 2) ∧
    (runBlocks [Nat.succ, Nat.succ] (fun s : ℕ => s) 0).2[
        (runBlocks [Nat.succ, Nat.succ] (fun s : ℕ => s) 0).2.length - 2]?
      = some (1 : ℕ) :=
  retention_input_is_last_layer.1 ℕ ℕ ℕ Unit [Nat.succ, Nat.succ]
    (fun s => s) (fun l _ => l) (fun s _ => s) 0 ()
    ⟨2, 1, some 2, [1]⟩ 2 rfl rfl

/-- C8: calling `PromptIndicator.forward` with `targets = None` always
raises: when retention is enabled the retention block iterates over
`targets` (src lines 166-167) and when it is disabled the
`assert targets is not None` (src line 183) fires; if fewer than two layers
ran, the `output_label_logits[-2]` lookup (src line 160) raises even
earlier.  In every case the call errors and produces no outputs. -/
theorem forward_requires_targets {σ L ι τ : Type} (blocks : List (σ → σ))
    (classify : σ → L) (retention : Option (L → τ → ι))
    (gather : σ → ι → σ) (tgt0 : σ) :
    ∃ e, PromptIndicator.forward blocks classify retention gather tgt0
      (none : Option τ) = Except.error e := by
  simp only [PromptIndicator.forward]
  by_cases h : 2 ≤ (runBlocks blocks classify tgt0).2.length
  · rw [dif_pos h]
    cases retention
    · exact ⟨ForwardError.missingTargets, rfl⟩
    · exact ⟨ForwardError.missingTargets, rfl⟩
  · rw [dif_neg h]
    exact ⟨ForwardError.indexError, rfl⟩

/-- C7: the claim says construction raises exactly for an unrecognized
init-file extension or for fixed-but-uninitialized prompts, and succeeds
otherwise.  The two claimed raising cases do raise, and the `.npy`
configurations do succeed — but the claim's "succeeds in every other
configuration" fails on the code in two places: a `.pth` init path (the
second recognized format per the spec) raises `NameError` because src line
89 calls `torch.load` and `torch` is never imported in this paddle port,
and the random-init configuration (no init source, trainable prompts)
raises `AttributeError` because src lines 105-106 call
`register_parameter` / `nn.Parameter` / `nn.init.normal_`, torch APIs that
`paddle.nn` does not provide.  This theorem records the agreeing cases and
both divergent cases. -/
theorem init_class_prompts_outcomes :
    initClassPromptsOutcome "weights.pth" false =
      Except.error InitPromptError.nameErrorTorch ∧
    initClassPromptsOutcome "weights.abc" false =
      Except.error InitPromptError.keyError ∧
    initClassPromptsOutcome "" true =
      Except.error InitPromptError.assertFixedPrompts ∧
    initClassPromptsOutcome "weights.npy" false = Except.ok () ∧
    initClassPromptsOutcome "weights.npy" true = Except.ok () ∧
    initClassPromptsOutcome "" false =
      Except.error InitPromptError.attributeErrorParameter := by
  refine ⟨?_, ?_, ?_, ?_, ?_, ?_⟩ <;> rfl

end Obj2Seq
